import Mathlib

/-!
Verification of the `beta` Betacode-to-Greek converter.

This file embeds the package's core (the `Sym` accumulator state machine
from `beta.go` and the streaming `Writer` from `writer.go`, in its
configurable-`Ignored` variant) as executable Lean definitions, and proves
or refutes the specified properties about them.

Machine-level conventions of the embedding:
- Go `rune` is `Char`; the zero rune is `nul`.
- Go `error` values produced by the package are the finite inductive `BErr`
  (each constructor stands for one distinct `errors.New` message).
- Go's `(bool, sym.Err())` contract for `Sym.Add` is mirrored exactly:
  `Sym.Add` returns the boolean together with the updated symbol.
- The output sink (`bufio.Writer` over a byte buffer) is modelled as an
  infallible string buffer; `WriteString`/`WriteRune` return the number of
  UTF-8 bytes written, which `utf8Length`/`utf8Len` compute.
-/

namespace Beta

/-- The zero rune (Go's zero value for `rune`). -/
def nul : Char := Char.ofNat 0

/-- Errors produced by the package, one constructor per distinct
`errors.New` message in the source. -/
inductive BErr where
  | accentNonVowel
  | breathingNonVowelNonRho
  | iotaNonVowel
  | tremaNonVowel
  | asteriskNotAtStart
  | unknownSymbol
deriving DecidableEq, Repr

/-- A parsed Betacode character (struct `Sym` of `beta.go`). -/
structure Sym where
  Base : Char
  Accent : Char
  Spiritus : Char
  Iota : Bool
  Trema : Bool
  ast : Bool
  err : Option BErr
deriving DecidableEq, Repr

/-- The zero value of `Sym` (Go's `var sym Sym`). -/
def symInit : Sym := ⟨nul, nul, nul, false, false, false, none⟩

/-- Go `strings.ContainsRune`. -/
def containsRune (s : String) (r : Char) : Bool := s.toList.contains r

/-- Constant `Vowels` of `beta.go`: vowels in Betacode. -/
def Vowels : String := "aehowiu"

/-- Go `unicode.ToLower`, restricted to the ASCII letters this package
feeds it (`Sym.Base` only ever holds `0` or an ASCII letter). -/
def toLowerGo (r : Char) : Char :=
  if 'A' ≤ r ∧ r ≤ 'Z' then Char.ofNat (r.toNat + 32) else r

/-- Go `unicode.ToUpper`, covering the characters this package feeds it:
ASCII letters (in `Sym.Add`) and the lowercase Greek letters appearing as
values of `code` (in `Sym.CombiningString`). -/
def toUpperGo (r : Char) : Char :=
  if 'a' ≤ r ∧ r ≤ 'z' then Char.ofNat (r.toNat - 32)
  else if r = 'ς' then 'Σ'
  else if 'α' ≤ r ∧ r ≤ 'ω' then Char.ofNat (r.toNat - 32)
  else if r = 'ϝ' then 'Ϝ'
  else r

/-- Go `unicode.IsUpper`, restricted to the values `Sym.Base` can hold
(`0` or an ASCII letter). -/
def isUpperGo (r : Char) : Bool := decide ('A' ≤ r ∧ r ≤ 'Z')

/-- Function `vowel` of `beta.go`. -/
def vowel (r : Char) : Bool := containsRune Vowels (toLowerGo r)

/-- Function `validAccent` of `beta.go`. -/
def validAccent (r : Char) : Option BErr :=
  if !vowel r then some BErr.accentNonVowel else none

/-- Function `validBreathing` of `beta.go`. -/
def validBreathing (r : Char) : Option BErr :=
  if !vowel r ∧ r ≠ 'R' ∧ r ≠ 'r' then some BErr.breathingNonVowelNonRho else none

/-- Function `validIota` of `beta.go`. -/
def validIota (r : Char) : Option BErr :=
  if !vowel r then some BErr.iotaNonVowel else none

/-- Function `validTrema` of `beta.go`. -/
def validTrema (r : Char) : Option BErr :=
  if !vowel r then some BErr.tremaNonVowel else none

/-- Method `Sym.Reset` of `beta.go`: clears every field. -/
def Sym.Reset (sym : Sym) : Sym :=
  { sym with Base := nul, Accent := nul, Spiritus := nul,
             Iota := false, Trema := false, ast := false, err := none }

/-- Method `Sym.Empty` of `beta.go`. -/
def Sym.Empty (sym : Sym) : Bool := sym.Base = nul ∧ !sym.ast

/-- Method `Sym.Err` of `beta.go`. -/
def Sym.Err (sym : Sym) : Option BErr := sym.err

/-- The cases of the `switch` in `Sym.Add`, decided by the character alone
(exactly the guards of the Go `switch`, in order). -/
inductive CharKind where
  | upper
  | lower
  | accent
  | breathing
  | iotaSub
  | trema
  | asterisk
  | other
deriving DecidableEq, Repr

/-- Selects the `switch` case of `Sym.Add` for a character. -/
def classify (r : Char) : CharKind :=
  if 'A' ≤ r ∧ r ≤ 'Z' then .upper
  else if 'a' ≤ r ∧ r ≤ 'z' then .lower
  else if r = '/' ∨ r = '\\' ∨ r = '=' then .accent
  else if r = '(' ∨ r = ')' then .breathing
  else if r = '|' then .iotaSub
  else if r = '+' then .trema
  else if r = '*' then .asterisk
  else .other

/-- The `case r >= 'A' && r <= 'Z'` branch of `Sym.Add`. -/
def addUpper (sym : Sym) (r : Char) : Bool × Sym :=
  if !sym.ast ∧ !sym.Empty then (false, sym)
  else (true, { sym with ast := false, Base := r })

/-- Tail of the asterisk-pending lowercase branch of `Sym.Add`: the
breathing re-check followed by the uppercased base assignment. -/
def addLowerBreath (s : Sym) (r : Char) : Bool × Sym :=
  if s.Spiritus ≠ nul then
    let s2 := { s with err := validBreathing r }
    if s2.err.isSome then (false, s2)
    else (true, { s2 with Base := toUpperGo r })
  else (true, { s with Base := toUpperGo r })

/-- The `case r >= 'a' && r <= 'z'` branch of `Sym.Add`. -/
def addLower (sym : Sym) (r : Char) : Bool × Sym :=
  if !sym.ast ∧ !sym.Empty then (false, sym)
  else if !sym.ast then (true, { sym with Base := r })
  else
    let s1 := { sym with ast := false }
    if s1.Accent ≠ nul then
      let s2 := { s1 with err := validAccent r }
      if s2.err.isSome then (false, s2) else addLowerBreath s2 r
    else addLowerBreath s1 r

/-- The `case r == '/' || r == '\\' || r == '='` branch of `Sym.Add`. -/
def addAccent (sym : Sym) (r : Char) : Bool × Sym :=
  if !sym.ast then
    let s := { sym with err := validAccent sym.Base }
    if s.err.isSome then (false, s) else (true, { s with Accent := r })
  else (true, { sym with Accent := r })

/-- The `case r == '(' || r == ')'` branch of `Sym.Add`. -/
def addBreathing (sym : Sym) (r : Char) : Bool × Sym :=
  if !sym.ast then
    let s := { sym with err := validBreathing sym.Base }
    if s.err.isSome then (false, s) else (true, { s with Spiritus := r })
  else (true, { sym with Spiritus := r })

/-- The `case r == '|'` branch of `Sym.Add`. -/
def addIotaSub (sym : Sym) : Bool × Sym :=
  let s := { sym with err := validIota sym.Base }
  if s.err.isSome then (false, s) else (true, { s with Iota := true })

/-- The `case r == '+'` branch of `Sym.Add`. -/
def addTrema (sym : Sym) : Bool × Sym :=
  let s := { sym with err := validTrema sym.Base }
  if s.err.isSome then (false, s) else (true, { s with Trema := true })

/-- The `case r == '*'` branch of `Sym.Add`: note that it records the
error when a base is present but still sets `ast` and returns `true`. -/
def addAsterisk (sym : Sym) : Bool × Sym :=
  let s := if sym.Base ≠ nul then { sym with err := some BErr.asteriskNotAtStart } else sym
  (true, { s with ast := true })

/-- Method `Sym.Add` of `beta.go`: returns Go's boolean result together
with the mutated symbol. -/
def Sym.Add (sym : Sym) (r : Char) : Bool × Sym :=
  match classify r with
  | .upper => addUpper sym r
  | .lower => addLower sym r
  | .accent => addAccent sym r
  | .breathing => addBreathing sym r
  | .iotaSub => addIotaSub sym
  | .trema => addTrema sym
  | .asterisk => addAsterisk sym
  | .other => (false, { sym with err := some BErr.unknownSymbol })

/-- The symbol after `Sym.Add` (discarding the boolean). -/
def addM (sym : Sym) (r : Char) : Sym := (sym.Add r).2

/-- Feeding a sequence of characters through `Sym.Add`. -/
def addAll (sym : Sym) (l : List Char) : Sym := l.foldl addM sym

/-- The three-way outcome of an addition, as documented on `Sym.Add` and
`Sym.Err` (the spec's Accepted / Boundary / Rejected result): `true` is
Accepted; `false` with a recorded error is Rejected; `false` with no
recorded error is Boundary. -/
inductive AddResult where
  | Accepted
  | Boundary
  | Rejected
deriving DecidableEq, Repr

/-- Classifies one `Sym.Add` call per the documented contract. -/
def Sym.addResult (sym : Sym) (r : Char) : AddResult :=
  let res := sym.Add r
  if res.1 then .Accepted
  else if res.2.err.isSome then .Rejected
  else .Boundary

/-- Map `code` of `beta.go`: Betacode characters to Greek codepoints and
combining marks. A missing key yields the zero rune, as a Go map does. -/
def code (r : Char) : Char :=
  match r with
  | 'A' => 'Α' | 'B' => 'Β' | 'G' => 'Γ' | 'D' => 'Δ' | 'E' => 'Ε'
  | 'V' => 'Ϝ' | 'Z' => 'Ζ' | 'H' => 'Η' | 'Q' => 'Θ' | 'I' => 'Ι'
  | 'K' => 'Κ' | 'L' => 'Λ' | 'M' => 'Μ' | 'N' => 'Ν' | 'C' => 'Ξ'
  | 'O' => 'Ο' | 'P' => 'Π' | 'R' => 'Ρ' | 'J' => 'Σ' | 'S' => 'Σ'
  | 'T' => 'Τ' | 'U' => 'Υ' | 'F' => 'Φ' | 'X' => 'Χ' | 'Y' => 'Ψ'
  | 'W' => 'Ω'
  | 'a' => 'α' | 'b' => 'β' | 'g' => 'γ' | 'd' => 'δ' | 'e' => 'ε'
  | 'v' => 'ϝ' | 'z' => 'ζ' | 'h' => 'η' | 'q' => 'θ' | 'i' => 'ι'
  | 'k' => 'κ' | 'l' => 'λ' | 'm' => 'μ' | 'n' => 'ν' | 'c' => 'ξ'
  | 'o' => 'ο' | 'p' => 'π' | 'r' => 'ρ' | 'j' => 'ς' | 's' => 'σ'
  | 't' => 'τ' | 'u' => 'υ' | 'f' => 'φ' | 'x' => 'χ' | 'y' => 'ψ'
  | 'w' => 'ω'
  | '/' => Char.ofNat 0x301
  | '\\' => Char.ofNat 0x300
  | '=' => Char.ofNat 0x342
  | ')' => Char.ofNat 0x313
  | '(' => Char.ofNat 0x314
  | '|' => Char.ofNat 0x345
  | '+' => Char.ofNat 0x308
  | _ => nul

/-- Method `Sym.String` of `beta.go` (the spec's `CanonicalText`): the
symbol as TypeGreek Betacode, diacritics after the base. -/
def Sym.canonicalText (sym : Sym) : String :=
  String.singleton sym.Base
    ++ (if sym.Spiritus ≠ nul then String.singleton sym.Spiritus else "")
    ++ (if sym.Accent ≠ nul then String.singleton sym.Accent else "")
    ++ (if sym.Iota then "|" else "")
    ++ (if sym.Trema then "+" else "")

/-- Method `Sym.CombiningString` of `beta.go`: base codepoint followed by
combining marks in the order breathing, accent, iota, diaeresis. -/
def Sym.CombiningString (sym : Sym) : String :=
  (if isUpperGo sym.Base
   then String.singleton (toUpperGo (code (toLowerGo sym.Base)))
   else String.singleton (code sym.Base))
    ++ (if sym.Spiritus ≠ nul then String.singleton (code sym.Spiritus) else "")
    ++ (if sym.Accent ≠ nul then String.singleton (code sym.Accent) else "")
    ++ (if sym.Iota then String.singleton (code '|') else "")
    ++ (if sym.Trema then String.singleton (code '+') else "")

/-- Modelled from the spec: the canonical combining class of a codepoint,
from the Unicode Character Data, restricted to the marks `code` can emit
(`Sym.Precombined` delegates normalization to the external
`golang.org/x/text/unicode/norm` library, which is not part of this
repository). All other characters reachable here are starters. -/
def ccc (c : Char) : Nat :=
  if c.toNat = 0x300 ∨ c.toNat = 0x301 ∨ c.toNat = 0x308 ∨ c.toNat = 0x313 ∨
     c.toNat = 0x314 ∨ c.toNat = 0x342 then 230
  else if c.toNat = 0x345 then 240
  else 0

/-- Modelled from the spec: the Unicode primary composite of a pair of
codepoints, restricted to the Greek range reachable from `code` (plain
Greek letters composed with the seven combining marks, and the resulting
polytonic composites composed further). `none` where the Unicode data has
no primary composite. -/
def compN (a b : Nat) : Option Nat :=
  match b with
  | 0x313 =>
    match a with
    | 0x3B1 => some 0x1F00 | 0x3B5 => some 0x1F10 | 0x3B7 => some 0x1F20
    | 0x3B9 => some 0x1F30 | 0x3BF => some 0x1F40 | 0x3C5 => some 0x1F50
    | 0x3C9 => some 0x1F60 | 0x3C1 => some 0x1FE4
    | 0x391 => some 0x1F08 | 0x395 => some 0x1F18 | 0x397 => some 0x1F28
    | 0x399 => some 0x1F38 | 0x39F => some 0x1F48 | 0x3A9 => some 0x1F68
    | _ => none
  | 0x314 =>
    match a with
    | 0x3B1 => some 0x1F01 | 0x3B5 => some 0x1F11 | 0x3B7 => some 0x1F21
    | 0x3B9 => some 0x1F31 | 0x3BF => some 0x1F41 | 0x3C5 => some 0x1F51
    | 0x3C9 => some 0x1F61 | 0x3C1 => some 0x1FE5
    | 0x391 => some 0x1F09 | 0x395 => some 0x1F19 | 0x397 => some 0x1F29
    | 0x399 => some 0x1F39 | 0x39F => some 0x1F49 | 0x3A5 => some 0x1F59
    | 0x3A9 => some 0x1F69 | 0x3A1 => some 0x1FEC
    | _ => none
  | 0x300 =>
    match a with
    | 0x3B1 => some 0x1F70 | 0x3B5 => some 0x1F72 | 0x3B7 => some 0x1F74
    | 0x3B9 => some 0x1F76 | 0x3BF => some 0x1F78 | 0x3C5 => some 0x1F7A
    | 0x3C9 => some 0x1F7C
    | 0x391 => some 0x1FBA | 0x395 => some 0x1FC8 | 0x397 => some 0x1FCA
    | 0x399 => some 0x1FDA | 0x39F => some 0x1FF8 | 0x3A5 => some 0x1FEA
    | 0x3A9 => some 0x1FFA
    | 0x3CA => some 0x1FD2 | 0x3CB => some 0x1FE2
    | 0x1F00 => some 0x1F02 | 0x1F01 => some 0x1F03
    | 0x1F10 => some 0x1F12 | 0x1F11 => some 0x1F13
    | 0x1F20 => some 0x1F22 | 0x1F21 => some 0x1F23
    | 0x1F30 => some 0x1F32 | 0x1F31 => some 0x1F33
    | 0x1F40 => some 0x1F42 | 0x1F41 => some 0x1F43
    | 0x1F50 => some 0x1F52 | 0x1F51 => some 0x1F53
    | 0x1F60 => some 0x1F62 | 0x1F61 => some 0x1F63
    | 0x1F08 => some 0x1F0A | 0x1F09 => some 0x1F0B
    | 0x1F18 => some 0x1F1A | 0x1F19 => some 0x1F1B
    | 0x1F28 => some 0x1F2A | 0x1F29 => some 0x1F2B
    | 0x1F38 => some 0x1F3A | 0x1F39 => some 0x1F3B
    | 0x1F48 => some 0x1F4A | 0x1F49 => some 0x1F4B
    | 0x1F59 => some 0x1F5B
    | 0x1F68 => some 0x1F6A | 0x1F69 => some 0x1F6B
    | _ => none
  | 0x301 =>
    match a with
    | 0x3B1 => some 0x3AC | 0x3B5 => some 0x3AD | 0x3B7 => some 0x3AE
    | 0x3B9 => some 0x3AF | 0x3BF => some 0x3CC | 0x3C5 => some 0x3CD
    | 0x3C9 => some 0x3CE
    | 0x391 => some 0x386 | 0x395 => some 0x388 | 0x397 => some 0x389
    | 0x399 => some 0x38A | 0x39F => some 0x38C | 0x3A5 => some 0x38E
    | 0x3A9 => some 0x38F
    | 0x3CA => some 0x390 | 0x3CB => some 0x3B0
    | 0x1F00 => some 0x1F04 | 0x1F01 => some 0x1F05
    | 0x1F10 => some 0x1F14 | 0x1F11 => some 0x1F15
    | 0x1F20 => some 0x1F24 | 0x1F21 => some 0x1F25
    | 0x1F30 => some 0x1F34 | 0x1F31 => some 0x1F35
    | 0x1F40 => some 0x1F44 | 0x1F41 => some 0x1F45
    | 0x1F50 => some 0x1F54 | 0x1F51 => some 0x1F55
    | 0x1F60 => some 0x1F64 | 0x1F61 => some 0x1F65
    | 0x1F08 => some 0x1F0C | 0x1F09 => some 0x1F0D
    | 0x1F18 => some 0x1F1C | 0x1F19 => some 0x1F1D
    | 0x1F28 => some 0x1F2C | 0x1F29 => some 0x1F2D
    | 0x1F38 => some 0x1F3C | 0x1F39 => some 0x1F3D
    | 0x1F48 => some 0x1F4C | 0x1F49 => some 0x1F4D
    | 0x1F59 => some 0x1F5D
    | 0x1F68 => some 0x1F6C | 0x1F69 => some 0x1F6D
    | _ => none
  | 0x342 =>
    match a with
    | 0x3B1 => some 0x1FB6 | 0x3B7 => some 0x1FC6 | 0x3B9 => some 0x1FD6
    | 0x3C5 => some 0x1FE6 | 0x3C9 => some 0x1FF6
    | 0x3CA => some 0x1FD7 | 0x3CB => some 0x1FE7
    | 0x1F00 => some 0x1F06 | 0x1F01 => some 0x1F07
    | 0x1F20 => some 0x1F26 | 0x1F21 => some 0x1F27
    | 0x1F30 => some 0x1F36 | 0x1F31 => some 0x1F37
    | 0x1F50 => some 0x1F56 | 0x1F51 => some 0x1F57
    | 0x1F60 => some 0x1F66 | 0x1F61 => some 0x1F67
    | 0x1F08 => some 0x1F0E | 0x1F09 => some 0x1F0F
    | 0x1F28 => some 0x1F2E | 0x1F29 => some 0x1F2F
    | 0x1F38 => some 0x1F3E | 0x1F39 => some 0x1F3F
    | 0x1F59 => some 0x1F5F
    | 0x1F68 => some 0x1F6E | 0x1F69 => some 0x1F6F
    | _ => none
  | 0x308 =>
    match a with
    | 0x3B9 => some 0x3CA | 0x3C5 => some 0x3CB
    | 0x399 => some 0x3AA | 0x3A5 => some 0x3AB
    | _ => none
  | 0x345 =>
    if 0x1F00 ≤ a ∧ a ≤ 0x1F0F then some (a + 0x80)
    else if 0x1F20 ≤ a ∧ a ≤ 0x1F2F then some (a + 0x70)
    else if 0x1F60 ≤ a ∧ a ≤ 0x1F6F then some (a + 0x40)
    else
      match a with
      | 0x3B1 => some 0x1FB3 | 0x3B7 => some 0x1FC3 | 0x3C9 => some 0x1FF3
      | 0x3AC => some 0x1FB4 | 0x3AE => some 0x1FC4 | 0x3CE => some 0x1FF4
      | 0x1F70 => some 0x1FB2 | 0x1F74 => some 0x1FC2 | 0x1F7C => some 0x1FF2
      | 0x1FB6 => some 0x1FB7 | 0x1FC6 => some 0x1FC7 | 0x1FF6 => some 0x1FF7
      | 0x391 => some 0x1FBC | 0x397 => some 0x1FCC | 0x3A9 => some 0x1FFC
      | _ => none
  | _ => none

/-- `compN` lifted to characters. -/
def comp (a b : Char) : Option Char := (compN a.toNat b.toNat).map (fun n => Char.ofNat n)

/-- One insertion of the canonical-ordering step: place `c` before the
first character that is a starter or has a strictly greater combining
class (so equal classes keep their relative order). -/
def insertByCCC (c : Char) : List Char → List Char
  | [] => [c]
  | d :: rest =>
    if ccc d = 0 ∨ ccc c ≤ ccc d then c :: d :: rest
    else d :: insertByCCC c rest

/-- Canonical ordering (fuel-indexed structural recursion): starters stay
put, non-starters are stably sorted by combining class within their run. -/
def canonicalReorderFuel : Nat → List Char → List Char
  | 0, l => l
  | _ + 1, [] => []
  | n + 1, c :: rest =>
    if ccc c = 0 then c :: canonicalReorderFuel n rest
    else insertByCCC c (canonicalReorderFuel n rest)

/-- The Unicode canonical ordering of a codepoint sequence. -/
def canonicalReorder (l : List Char) : List Char := canonicalReorderFuel l.length l

/-- The canonical composition pass over a canonically ordered sequence:
`L` is the last starter, `pending` (reversed) the marks that failed to
combine with it, `lastCC` the class of the last such mark (`L` blocks a
mark `m` iff some uncombined mark of class ≥ `ccc m` sits between them). -/
def composeGo (L : Char) (pending : List Char) (lastCC : Nat) : List Char → List Char
  | [] => L :: pending.reverse
  | m :: rest =>
    if ccc m = 0 then L :: pending.reverse ++ composeGo m [] 0 rest
    else if pending.isEmpty ∨ lastCC < ccc m then
      match comp L m with
      | some L2 => composeGo L2 pending lastCC rest
      | none => composeGo L (m :: pending) (ccc m) rest
    else composeGo L (m :: pending) lastCC rest

/-- Canonical composition of an ordered sequence. -/
def composeAll : List Char → List Char
  | [] => []
  | c :: rest => composeGo c [] 0 rest

/-- Modelled from the spec: Unicode canonical composition (NFC) as applied
by `Sym.Precombined` through the external `norm` library, for input that
is already canonically decomposed — which every `Sym.CombiningString`
output is (plain Greek letters and combining marks only). -/
def nfc (s : String) : String := String.mk (composeAll (canonicalReorder s.toList))

/-- Method `Sym.PrecombinedString` of `beta.go` (the spec's
`PrecomposedText`): the NFC-normalised Unicode form. `Sym.Precombined`
is `norm.NFC.Bytes(sym.Combining())`; we model it at the string level. -/
def Sym.PrecombinedString (sym : Sym) : String := nfc sym.CombiningString

/-- UTF-8 encoded length in bytes of one codepoint. -/
def utf8Len (c : Char) : Nat :=
  if c.toNat < 0x80 then 1
  else if c.toNat < 0x800 then 2
  else if c.toNat < 0x10000 then 3
  else 4

/-- UTF-8 encoded length in bytes of a string (what Go's
`WriteString`/`WriteRune` report as the count of bytes written). -/
def utf8Length (s : String) : Nat := (s.toList.map utf8Len).sum

/-- Constant `Ignored` of `writer.go`: the Go string literal
`",.';:·?-–—[1234567890!] \t\n"` (the third character is the ASCII
apostrophe, the last two are tab and newline). -/
def IgnoredDefault : String :=
  String.mk [',', '.', Char.ofNat 39, ';', ':', '·', '?', '-', '–', '—', '[',
             '1', '2', '3', '4', '5', '6', '7', '8', '9', '0', '!', ']', ' ',
             Char.ofNat 9, Char.ofNat 10]

/-- Struct `Writer` of `writer.go` (configurable-`Ignored` variant); the
`bufio.Writer` sink is modelled as a string accumulated by `write`. -/
structure Writer where
  Combining : Bool
  Ignored : String

/-- Function `NewWriter` of `writer.go`: default configuration. -/
def NewWriter : Writer := { Combining := false, Ignored := IgnoredDefault }

/-- The closure `wsym`'s choice of rendering in `Writer.Write`. -/
def render (w : Writer) (sym : Sym) : String :=
  if w.Combining then sym.CombiningString else sym.PrecombinedString

/-- The loop of `Writer.Write`: carries the in-flight symbol, the running
byte count `total` and the sink contents `out`; returns Go's `(n, err)`
plus the final sink contents. On `Rejected` the Go code executes
`return total, err` where `err` is the function's named return value,
still `nil` at that point — so the returned error is `none` there, exactly
as in the source. The second failed `Add` after a boundary can only be a
rejection (a reset symbol accepts every base letter), and returns the
same way. -/
def writeLoop (w : Writer) (sym : Sym) (total : Nat) (out : String) :
    List Char → Nat × Option BErr × String
  | [] =>
    let t := render w sym
    (total + utf8Length t, none, out ++ t)
  | r :: rest =>
    if containsRune w.Ignored r then
      let sym2 := if sym.Base = 's' then { sym with Base := 'j' } else sym
      let t := render w sym2
      writeLoop w symInit (total + utf8Length t + utf8Len r)
        (out ++ t ++ String.singleton r) rest
    else
      match sym.Add r with
      | (true, sym2) => writeLoop w sym2 total out rest
      | (false, sym2) =>
        if sym2.err.isSome then (total, none, out)
        else
          let t := render w sym2
          match symInit.Add r with
          | (true, sym3) => writeLoop w sym3 (total + utf8Length t) (out ++ t) rest
          | (false, _) => (total + utf8Length t, none, out ++ t)

/-- Method `Writer.Write` of `writer.go`, on a string of runes. -/
def write (w : Writer) (s : String) : Nat × Option BErr × String :=
  writeLoop w symInit 0 "" s.toList

/-- A Betacode base letter (the guards of the first two `switch` cases of
`Sym.Add`). -/
def isBaseLetter (c : Char) : Bool := ('A' ≤ c ∧ c ≤ 'Z') ∨ ('a' ≤ c ∧ c ≤ 'z')

/-- An accent marker (acute, grave, circumflex). -/
def isAccentMark (c : Char) : Bool := c = '/' ∨ c = '\\' ∨ c = '='

/-- A breathing marker (rough, smooth). -/
def isBreathingMark (c : Char) : Bool := c = '(' ∨ c = ')'

/-- Any of the seven diacritic markers handled by `Sym.Add` (accent,
breathing, iota subscript, diaeresis). -/
def isDiacritic (c : Char) : Bool :=
  isAccentMark c || isBreathingMark c || c = '|' || c = '+'

/-- The letter-class rule of the source for attaching marker `c` to base
letter `b`: accents, iota subscript and diaeresis require a vowel,
breathing a vowel or rho (`validAccent`/`validBreathing`/`validIota`/
`validTrema` return nil exactly in these cases). -/
def diacriticValid (b c : Char) : Bool :=
  if isAccentMark c then vowel b
  else if isBreathingMark c then vowel b || b = 'R' || b = 'r'
  else if c = '|' then vowel b
  else if c = '+' then vowel b
  else false

/-- The last accent marker of `l`, or `d` when there is none (what a fold
of `Sym.Add` leaves in the `Accent` field). -/
def accOf (l : List Char) (d : Char) : Char := (l.filter isAccentMark).getLastD d

/-- The last breathing marker of `l`, or `d` when there is none. -/
def brOf (l : List Char) (d : Char) : Char := (l.filter isBreathingMark).getLastD d

/-- Whether `l` contains the iota-subscript marker. -/
def hasIota (l : List Char) : Bool := l.any (fun c => c = '|')

/-- Whether `l` contains the diaeresis marker. -/
def hasTrema (l : List Char) : Bool := l.any (fun c => c = '+')

/-- C10: `Reset` makes any `Sym` indistinguishable from a freshly
constructed one — every field including the error is cleared, the symbol
is empty, and every subsequent sequence of additions behaves exactly as on
a fresh symbol. -/
theorem C10_reset_fresh :
    ∀ sym : Sym, sym.Reset = symInit ∧ (sym.Reset).Empty = true ∧
      ∀ l : List Char, addAll sym.Reset l = addAll symInit l :=
  fun _ => ⟨rfl, rfl, fun _ => rfl⟩

/-- C2 (code bug): adding the asterisk to a `Sym` whose base is already
set records the misplaced-asterisk error but nevertheless returns `true`
(Accepted) and sets the pending-asterisk flag — the rejection the claim
and the `Add`/`Err` documentation describe never happens. -/
theorem C2_misplaced_asterisk_accepted :
    (symInit.Add 'a').2.Add '*' =
      (true, { symInit with Base := 'a', ast := true, err := some BErr.asteriskNotAtStart }) ∧
    ((symInit.Add 'a').2.addResult '*' = AddResult.Accepted) := by decide

/-- C6 (counterexample): `Add` can set `lastError` back to `nil`: after
base `r` and a rejected accent the error is recorded, but a following
valid breathing marker overwrites it with the nil result of its
validation. -/
theorem C6_lasterror_cleared_by_add_cex :
    (addAll symInit ['r', '/']).err = some BErr.accentNonVowel ∧
    ((addAll symInit ['r', '/']).Add '(').2.err = none := by decide

/-- C7 (counterexample): a set base letter can be overwritten by later
`Add` calls without any reset: after `a` the (erroneous but accepted)
asterisk sets the pending flag, and the next base letter `B` replaces the
base. -/
theorem C7_base_overwrite_cex :
    (symInit.Add 'a').2.Base = 'a' ∧
    (addAll symInit ['a', '*', 'B']).Base = 'B' := by decide

/-- C3 (counterexample): under a pending asterisk with no base, the
iota-subscript marker is not deferred but immediately Rejected; and a
provisionally recorded breathing marker is never re-validated when the
base letter arrives as an uppercase letter (`*(B` is fully accepted with
no error although breathing on `B` is invalid). -/
theorem C3_deferral_cex :
    ((symInit.Add '*').2.addResult '|' = AddResult.Rejected) ∧
    ((symInit.Add '*').2.addResult '(' = AddResult.Accepted) ∧
    ((addAll symInit ['*', '(']).addResult 'B' = AddResult.Accepted) ∧
    (addAll symInit ['*', '(', 'B'] = { symInit with Base := 'B', Spiritus := '(' }) ∧
    validBreathing 'B' = some BErr.breathingNonVowelNonRho := by decide

/-- C1 (code bug): when `Sym.Add` rejects a character, `Writer.Write`
stops consuming input but executes `return total, err` with the named
return value `err`, which is still `nil` — the symbol's recorded error
(shown non-nil in the second conjunct) is discarded and the caller sees a
nil error. -/
theorem C1_write_returns_nil_error :
    write NewWriter "b(" = (0, none, "") ∧
    ((symInit.Add 'b').2.Add '(').2.Err = some BErr.breathingNonVowelNonRho := by decide

/-- C4 (code bug): the terminator handling itself rewrites a final plain
sigma to the final-sigma variant and passes the terminator through
(`"as "` renders `ας`), but the unconditional flush at end of input also
renders the then-empty symbol, whose absent base maps to the zero rune —
so streaming `"mh=nin "` yields `"μῆνιν "` followed by a spurious U+0000,
not the exact `"μῆνιν "` the claim (and the repository's own TestWriter)
expect. -/
theorem C4_final_sigma_nul_eval :
    write NewWriter "mh=nin " = (13, none, "μῆνιν " ++ String.singleton nul) ∧
    write NewWriter "as " = (6, none, "ας " ++ String.singleton nul) := by decide

theorem classify_of_isBaseLetter {c : Char} (h : isBaseLetter c = true) :
    classify c = CharKind.upper ∨ classify c = CharKind.lower := by
  simp only [isBaseLetter, decide_eq_true_eq] at h
  rcases h with h | h
  · exact Or.inl (by simp [classify, h])
  · refine Or.inr ?_
    have hAZ : ¬('A' ≤ c ∧ c ≤ 'Z') := by
      rintro ⟨-, h2⟩
      exact absurd (le_trans h.1 h2) (by decide)
    simp [classify, hAZ, h]

theorem Empty_false {sym : Sym} (hb : sym.Base ≠ nul) : sym.Empty = false := by
  simp [Sym.Empty, hb]

/-- C5: adding a base letter to a non-empty `Sym` with no pending asterisk
mutates nothing (the same symbol comes back, so `lastError` stays nil) and
the outcome is Boundary, distinguishable from Rejected; in particular on
`"ab"` the `a` is Accepted and the `b` is Boundary. -/
theorem C5_boundary_no_mutation (sym : Sym) (c : Char)
    (ha : sym.ast = false) (hb : sym.Base ≠ nul) (he : sym.err = none)
    (hc : isBaseLetter c = true) :
    sym.Add c = (false, sym) ∧ sym.addResult c = AddResult.Boundary ∧
    symInit.addResult 'a' = AddResult.Accepted ∧
    (symInit.Add 'a').2.addResult 'b' = AddResult.Boundary := by
  have hmain : sym.Add c = (false, sym) := by
    rcases classify_of_isBaseLetter hc with hk | hk <;>
      simp [Sym.Add, hk, addUpper, addLower, ha, Empty_false hb]
  refine ⟨hmain, ?_, by decide, by decide⟩
  simp [Sym.addResult, hmain, he]

theorem C5_boundary_no_mutation_witness :
    ({ symInit with Base := 'a' } : Sym).Add 'b' = (false, { symInit with Base := 'a' }) ∧
    ({ symInit with Base := 'a' } : Sym).addResult 'b' = AddResult.Boundary ∧
    symInit.addResult 'a' = AddResult.Accepted ∧
    (symInit.Add 'a').2.addResult 'b' = AddResult.Boundary :=
  C5_boundary_no_mutation { symInit with Base := 'a' } 'b' rfl (by decide) rfl (by decide)

/-- C6 (amended): `lastError` is cleared by an explicit `Reset`, but also
implicitly by any later `Add` of a diacritic whose validation against the
current base succeeds — the nil validation result overwrites the recorded
error (shown here for a breathing marker with no pending asterisk). -/
theorem C6_lasterror_amended (sym : Sym) (ha : sym.ast = false)
    (hv : validBreathing sym.Base = none) :
    ((sym.Add '(').2.err = none) ∧ sym.Reset.err = none := by
  refine ⟨?_, rfl⟩
  simp [Sym.Add, show classify '(' = CharKind.breathing from by decide,
        addBreathing, ha, hv]

theorem C6_lasterror_amended_witness :
    ((({ symInit with Base := 'r', err := some BErr.accentNonVowel } : Sym).Add '(').2.err = none) ∧
    ({ symInit with Base := 'r', err := some BErr.accentNonVowel } : Sym).Reset.err = none :=
  C6_lasterror_amended { symInit with Base := 'r', err := some BErr.accentNonVowel } rfl (by decide)

/-- C7 (amended): while no asterisk is pending, no `Add` ever changes a
set base letter (only `Reset`, and the Writer's external final-sigma
rewrite, change it); the protection fails only after a misplaced asterisk
has been accepted, as the counterexample shows. -/
theorem C7_base_stable_amended (sym : Sym) (c : Char)
    (ha : sym.ast = false) (hb : sym.Base ≠ nul) :
    ((sym.Add c).2).Base = sym.Base := by
  unfold Sym.Add
  cases hk : classify c <;>
    simp only [addUpper, addLower, addAccent, addBreathing, addIotaSub,
               addTrema, addAsterisk, ha, Empty_false hb] <;>
    split <;> (try split) <;> simp_all

theorem C7_base_stable_amended_witness :
    ((({ symInit with Base := 'a' } : Sym).Add 'b').2).Base =
      ({ symInit with Base := 'a' } : Sym).Base :=
  C7_base_stable_amended { symInit with Base := 'a' } 'b' rfl (by decide)

/-- C3 (amended): while `asteriskPending` is set, accent and breathing
markers are recorded provisionally with result Accepted and without any
check; they are re-validated only when the base letter arrives as a
lowercase letter (an invalid provisional breathing is Rejected there),
while an uppercase base letter is accepted with no re-validation at all;
iota-subscript and diaeresis markers are never deferred — with no base
they are immediately Rejected even under a pending asterisk; and with no
asterisk pending, marker validity is checked immediately against the
current base. -/
theorem C3_deferral_amended :
    (∀ sym : Sym, sym.ast = true →
      sym.Add '(' = (true, { sym with Spiritus := '(' }) ∧
      sym.Add '/' = (true, { sym with Accent := '/' })) ∧
    (∀ sym : Sym, ∀ c : Char, sym.ast = true → classify c = CharKind.lower →
      sym.Accent = nul → sym.Spiritus ≠ nul → validBreathing c ≠ none →
      (sym.Add c).1 = false ∧ (sym.Add c).2.err = validBreathing c) ∧
    (∀ sym : Sym, ∀ c : Char, sym.ast = true → classify c = CharKind.upper →
      sym.Add c = (true, { sym with ast := false, Base := c })) ∧
    (∀ sym : Sym, sym.ast = true → sym.Base = nul →
      sym.addResult '|' = AddResult.Rejected ∧
      sym.addResult '+' = AddResult.Rejected) ∧
    (∀ sym : Sym, sym.ast = false → vowel sym.Base = false →
      sym.addResult '/' = AddResult.Rejected) := by
  refine ⟨fun sym ha => ⟨?_, ?_⟩, fun sym c ha hk hA hS hv => ?_,
          fun sym c ha hk => ?_, fun sym ha hb => ⟨?_, ?_⟩, fun sym ha hv => ?_⟩
  · simp [Sym.Add, show classify '(' = CharKind.breathing from by decide, addBreathing, ha]
  · simp [Sym.Add, show classify '/' = CharKind.accent from by decide, addAccent, ha]
  · have : (sym.Add c).1 = false ∧ (sym.Add c).2.err = validBreathing c := by
      simp only [Sym.Add, hk, addLower, addLowerBreath, ha, hA, hS]
      simp [Option.isSome_iff_ne_none, hv, hS]
    exact this
  · simp [Sym.Add, hk, addUpper, ha]
  · simp [Sym.addResult, Sym.Add, show classify '|' = CharKind.iotaSub from by decide,
          addIotaSub, validIota, hb, show vowel nul = false from by decide]
  · simp [Sym.addResult, Sym.Add, show classify '+' = CharKind.trema from by decide,
          addTrema, validTrema, hb, show vowel nul = false from by decide]
  · simp [Sym.addResult, Sym.Add, show classify '/' = CharKind.accent from by decide,
          addAccent, validAccent, ha, hv]

theorem C3_deferral_amended_witness :
    ({ symInit with ast := true } : Sym).Add '(' =
      (true, { symInit with ast := true, Spiritus := '(' }) ∧
    ({ symInit with ast := true } : Sym).Add '/' =
      (true, { symInit with ast := true, Accent := '/' }) :=
  C3_deferral_amended.1 { symInit with ast := true } rfl

/-- C9: `PrecomposedText` is exactly the Unicode canonical composition
(NFC) of `CombiningText` — in the source `Precombined` is defined as
`norm.NFC.Bytes(sym.Combining())`, so the two rendered forms are
canonically equivalent for every `Sym`. -/
theorem C9_precomposed_eq_nfc_combining :
    ∀ sym : Sym, sym.PrecombinedString = nfc sym.CombiningString :=
  fun _ => rfl

theorem isAccentMark_not {c : Char} (h : isAccentMark c = true) :
    isBreathingMark c = false ∧ c ≠ '|' ∧ c ≠ '+' := by
  have h3 : c = '/' ∨ c = '\\' ∨ c = '=' := by simpa [isAccentMark] using h
  rcases h3 with rfl | rfl | rfl <;> exact ⟨by decide, by decide, by decide⟩

theorem isBreathingMark_not {c : Char} (h : isBreathingMark c = true) :
    isAccentMark c = false ∧ c ≠ '|' ∧ c ≠ '+' := by
  have h2 : c = '(' ∨ c = ')' := by simpa [isBreathingMark] using h
  rcases h2 with rfl | rfl <;> exact ⟨by decide, by decide, by decide⟩

theorem validBreathing_none {b : Char} (h : (vowel b || b = 'R' || b = 'r') = true) :
    validBreathing b = none := by
  simp only [Bool.or_eq_true, decide_eq_true_eq] at h
  simp only [validBreathing, ite_eq_right_iff]
  rintro ⟨h1, h2, h3⟩
  rcases h with (h | h) | h
  · simp [h] at h1
  · exact absurd h h2
  · exact absurd h h3

theorem Add_accent_mark (s : Sym) (c : Char) (ha : s.ast = false)
    (hc : isAccentMark c = true) (hv : vowel s.Base = true) :
    s.Add c = (true, { s with Accent := c, err := none }) := by
  have h3 : c = '/' ∨ c = '\\' ∨ c = '=' := by simpa [isAccentMark] using hc
  have hk : classify c = CharKind.accent := by rcases h3 with rfl | rfl | rfl <;> decide
  simp [Sym.Add, hk, addAccent, ha, validAccent, hv]

theorem Add_breathing_mark (s : Sym) (c : Char) (ha : s.ast = false)
    (hc : isBreathingMark c = true) (hv : validBreathing s.Base = none) :
    s.Add c = (true, { s with Spiritus := c, err := none }) := by
  have h2 : c = '(' ∨ c = ')' := by simpa [isBreathingMark] using hc
  have hk : classify c = CharKind.breathing := by rcases h2 with rfl | rfl <;> decide
  simp [Sym.Add, hk, addBreathing, ha, hv]

theorem Add_iota_mark (s : Sym) (hv : vowel s.Base = true) :
    s.Add '|' = (true, { s with Iota := true, err := none }) := by
  simp [Sym.Add, show classify '|' = CharKind.iotaSub from by decide,
        addIotaSub, validIota, hv]

theorem Add_trema_mark (s : Sym) (hv : vowel s.Base = true) :
    s.Add '+' = (true, { s with Trema := true, err := none }) := by
  simp [Sym.Add, show classify '+' = CharKind.trema from by decide,
        addTrema, validTrema, hv]

theorem accOf_cons_pos (c : Char) (t : List Char) (d : Char)
    (h : isAccentMark c = true) : accOf (c :: t) d = accOf t c := by
  rw [accOf, accOf, List.filter_cons, if_pos h, List.getLastD_cons]

theorem accOf_cons_neg (c : Char) (t : List Char) (d : Char)
    (h : isAccentMark c = false) : accOf (c :: t) d = accOf t d := by
  rw [accOf, accOf, List.filter_cons, if_neg (by simp [h])]

theorem brOf_cons_pos (c : Char) (t : List Char) (d : Char)
    (h : isBreathingMark c = true) : brOf (c :: t) d = brOf t c := by
  rw [brOf, brOf, List.filter_cons, if_pos h, List.getLastD_cons]

theorem brOf_cons_neg (c : Char) (t : List Char) (d : Char)
    (h : isBreathingMark c = false) : brOf (c :: t) d = brOf t d := by
  rw [brOf, brOf, List.filter_cons, if_neg (by simp [h])]

theorem hasIota_cons (c : Char) (t : List Char) :
    hasIota (c :: t) = (decide (c = '|') || hasIota t) := by
  rw [hasIota, hasIota, List.any_cons]

theorem hasTrema_cons (c : Char) (t : List Char) :
    hasTrema (c :: t) = (decide (c = '+') || hasTrema t) := by
  rw [hasTrema, hasTrema, List.any_cons]

theorem addAll_diacritics (s : Sym) (l : List Char) (ha : s.ast = false)
    (hd : ∀ c ∈ l, isDiacritic c = true ∧ diacriticValid s.Base c = true) :
    (addAll s l).Base = s.Base ∧ (addAll s l).ast = false ∧
    (addAll s l).Accent = accOf l s.Accent ∧
    (addAll s l).Spiritus = brOf l s.Spiritus ∧
    (addAll s l).Iota = (s.Iota || hasIota l) ∧
    (addAll s l).Trema = (s.Trema || hasTrema l) := by
  induction l generalizing s with
  | nil => simp [addAll, accOf, brOf, hasIota, hasTrema, ha]
  | cons c t ih =>
    obtain ⟨hdc, hvc⟩ := hd c (List.mem_cons_self c t)
    have hdt : ∀ x ∈ t, isDiacritic x = true ∧ diacriticValid s.Base x = true :=
      fun x hx => hd x (List.mem_cons_of_mem c hx)
    have hall : addAll s (c :: t) = addAll (addM s c) t := rfl
    rcases (by simpa [isDiacritic, or_assoc] using hdc :
        isAccentMark c = true ∨ isBreathingMark c = true ∨ c = '|' ∨ c = '+')
      with hk | hk | rfl | rfl
    · have hv : vowel s.Base = true := by simpa [diacriticValid, hk] using hvc
      have hs' : addM s c = { s with Accent := c, err := none } := by
        rw [addM, Add_accent_mark s c ha hk hv]
      obtain ⟨hno1, hno2, hno3⟩ := isAccentMark_not hk
      obtain ⟨ihB, ihA, ihAc, ihSp, ihI, ihT⟩ :=
        ih (addM s c) (by simp [hs', ha]) (by simpa [hs'] using hdt)
      rw [hall]
      refine ⟨by rw [ihB, hs'], ihA, ?_, ?_, ?_, ?_⟩
      · rw [ihAc, hs', accOf_cons_pos c t s.Accent hk]
      · rw [ihSp, hs', brOf_cons_neg c t s.Spiritus hno1]
      · rw [ihI, hs', hasIota_cons]; simp [hno2]
      · rw [ihT, hs', hasTrema_cons]; simp [hno3]
    · have hv : validBreathing s.Base = none := by
        refine validBreathing_none ?_
        simpa [diacriticValid, hk, (isBreathingMark_not hk).1] using hvc
      have hs' : addM s c = { s with Spiritus := c, err := none } := by
        rw [addM, Add_breathing_mark s c ha hk hv]
      obtain ⟨hno1, hno2, hno3⟩ := isBreathingMark_not hk
      obtain ⟨ihB, ihA, ihAc, ihSp, ihI, ihT⟩ :=
        ih (addM s c) (by simp [hs', ha]) (by simpa [hs'] using hdt)
      rw [hall]
      refine ⟨by rw [ihB, hs'], ihA, ?_, ?_, ?_, ?_⟩
      · rw [ihAc, hs', accOf_cons_neg c t s.Accent hno1]
      · rw [ihSp, hs', brOf_cons_pos c t s.Spiritus hk]
      · rw [ihI, hs', hasIota_cons]; simp [hno2]
      · rw [ihT, hs', hasTrema_cons]; simp [hno3]
    · have hv : vowel s.Base = true := by simpa [diacriticValid] using hvc
      have hs' : addM s '|' = { s with Iota := true, err := none } := by
        rw [addM, Add_iota_mark s hv]
      obtain ⟨ihB, ihA, ihAc, ihSp, ihI, ihT⟩ :=
        ih (addM s '|') (by simp [hs', ha]) (by simpa [hs'] using hdt)
      rw [hall]
      refine ⟨by rw [ihB, hs'], ihA, ?_, ?_, ?_, ?_⟩
      · rw [ihAc, hs', accOf_cons_neg _ t s.Accent (by decide)]
      · rw [ihSp, hs', brOf_cons_neg _ t s.Spiritus (by decide)]
      · rw [ihI, hs', hasIota_cons]; simp
      · rw [ihT, hs', hasTrema_cons]; simp
    · have hv : vowel s.Base = true := by simpa [diacriticValid] using hvc
      have hs' : addM s '+' = { s with Trema := true, err := none } := by
        rw [addM, Add_trema_mark s hv]
      obtain ⟨ihB, ihA, ihAc, ihSp, ihI, ihT⟩ :=
        ih (addM s '+') (by simp [hs', ha]) (by simpa [hs'] using hdt)
      rw [hall]
      refine ⟨by rw [ihB, hs'], ihA, ?_, ?_, ?_, ?_⟩
      · rw [ihAc, hs', accOf_cons_neg _ t s.Accent (by decide)]
      · rw [ihSp, hs', brOf_cons_neg _ t s.Spiritus (by decide)]
      · rw [ihI, hs', hasIota_cons]; simp
      · rw [ihT, hs', hasTrema_cons]; simp

theorem perm_eq_of_length_le_one {l l' : List Char} (h : l.Perm l')
    (hl : l.length ≤ 1) : l = l' := by
  cases l with
  | nil => exact h.nil_eq
  | cons a t =>
    cases t with
    | nil => exact h.singleton_eq
    | cons b t2 => simp at hl

theorem any_perm {l l' : List Char} (h : l.Perm l') (p : Char → Bool) :
    l.any p = l'.any p := by
  apply Bool.eq_iff_iff.mpr
  simp only [List.any_eq_true]
  exact ⟨fun ⟨x, hm, hp⟩ => ⟨x, h.mem_iff.mp hm, hp⟩,
         fun ⟨x, hm, hp⟩ => ⟨x, h.mem_iff.mpr hm, hp⟩⟩

/-- C8: for every base letter and every set of diacritic markers that is
valid for its letter class (at most one accent and one breathing), feeding
the markers through `Add` in any order yields the same `CanonicalText`,
and that text always renders the base letter, then the breathing, then the
accent, then the iota-subscript marker, then the diaeresis marker. -/
theorem C8_perm_invariance (b : Char) (l l' : List Char)
    (hb : isBaseLetter b = true) (hp : l.Perm l')
    (hd : ∀ c ∈ l, isDiacritic c = true ∧ diacriticValid b c = true)
    (hacc : (l.filter isAccentMark).length ≤ 1)
    (hbr : (l.filter isBreathingMark).length ≤ 1) :
    symInit.Add b = (true, ⟨b, nul, nul, false, false, false, none⟩) ∧
    (addAll ⟨b, nul, nul, false, false, false, none⟩ l).canonicalText =
      (addAll ⟨b, nul, nul, false, false, false, none⟩ l').canonicalText ∧
    (addAll ⟨b, nul, nul, false, false, false, none⟩ l).canonicalText =
      String.singleton b
        ++ (if brOf l nul ≠ nul then String.singleton (brOf l nul) else "")
        ++ (if accOf l nul ≠ nul then String.singleton (accOf l nul) else "")
        ++ (if hasIota l then "|" else "")
        ++ (if hasTrema l then "+" else "") := by
  have hbase : symInit.Add b = (true, ⟨b, nul, nul, false, false, false, none⟩) := by
    rcases classify_of_isBaseLetter hb with hk | hk
    · rw [Sym.Add, hk]
      rw [addUpper, if_neg (by decide)]
      rfl
    · rw [Sym.Add, hk]
      rw [addLower, if_neg (by decide), if_pos (by decide)]
      rfl
  refine ⟨hbase, ?_⟩
  have hd' : ∀ c ∈ l', isDiacritic c = true ∧ diacriticValid b c = true :=
    fun c hc => hd c (hp.mem_iff.mpr hc)
  obtain ⟨hB, -, hA, hS, hI, hT⟩ :=
    addAll_diacritics ⟨b, nul, nul, false, false, false, none⟩ l rfl hd
  obtain ⟨hB', -, hA', hS', hI', hT'⟩ :=
    addAll_diacritics ⟨b, nul, nul, false, false, false, none⟩ l' rfl hd'
  have hfa : l.filter isAccentMark = l'.filter isAccentMark :=
    perm_eq_of_length_le_one (hp.filter _) hacc
  have hfb : l.filter isBreathingMark = l'.filter isBreathingMark :=
    perm_eq_of_length_le_one (hp.filter _) hbr
  have hio : hasIota l = hasIota l' := any_perm hp _
  have htr : hasTrema l = hasTrema l' := any_perm hp _
  have haeq : accOf l nul = accOf l' nul := by rw [accOf, accOf, hfa]
  have hbeq : brOf l nul = brOf l' nul := by rw [brOf, brOf, hfb]
  constructor
  · simp only [Sym.canonicalText, hB, hB', hA, hA', hS, hS', hI, hI', hT, hT',
               Bool.false_or, haeq, hbeq, hio, htr]
  · simp only [Sym.canonicalText, hB, hA, hS, hI, hT, Bool.false_or]

theorem C8_perm_invariance_witness :
    symInit.Add 'a' = (true, ⟨'a', nul, nul, false, false, false, none⟩) ∧
    (addAll ⟨'a', nul, nul, false, false, false, none⟩ ['(', '=', '|']).canonicalText =
      (addAll ⟨'a', nul, nul, false, false, false, none⟩ ['|', '(', '=']).canonicalText ∧
    (addAll ⟨'a', nul, nul, false, false, false, none⟩ ['(', '=', '|']).canonicalText =
      String.singleton 'a'
        ++ (if brOf ['(', '=', '|'] nul ≠ nul then String.singleton (brOf ['(', '=', '|'] nul) else "")
        ++ (if accOf ['(', '=', '|'] nul ≠ nul then String.singleton (accOf ['(', '=', '|'] nul) else "")
        ++ (if hasIota ['(', '=', '|'] then "|" else "")
        ++ (if hasTrema ['(', '=', '|'] then "+" else "") :=
  C8_perm_invariance 'a' ['(', '=', '|'] ['|', '(', '=']
    (by decide) (by decide) (by decide) (by decide) (by decide)

end Beta
